import Mathlib

/-!
# ExpenseTracker: the expense store reducer and the expense form's submit handler

A shallow embedding of `src/expenses-context.js` (the reducer `expensesReducer` and the
three dispatching wrappers) and of `src/ExpenseForm.js` (`submitHandler`, `formIsInvalid`,
`inputChangedHandler`), followed by theorems about them.

JavaScript values are embedded as follows.

* A number is `nan`, an infinity, or a finite value `mantissa * 2 ^ exponent`
  (the sign of zero is not tracked: nothing in the program observes it).
* An object is its list of own properties in insertion order, with pairwise distinct keys.
* An array is its list of elements together with its non-index own properties
  (`a[-1] = x` creates such a property and leaves the elements alone).
* A `Date` is its time value, `none` standing for `NaN` (an "Invalid Date").

The built-ins whose result depends on the engine are inputs of the model:
the string drawn by `Math.random().toString()`, string-to-number conversion outside plain
digit strings, and `Date.parse` outside the strict date-only forms of ECMA-262.
-/

namespace ExpenseTracker

/-! ## Values -/

/-- A JavaScript Number: `NaN`, `±Infinity`, or the finite value `mantissa * 2 ^ exponent`. -/
inductive JSNumber
  | nan
  | inf (negative : Bool)
  | fin (mantissa : Int) (exponent : Int)
  deriving DecidableEq, Repr

/-- The global `isNaN` on a Number. -/
def isNaN : JSNumber → Bool
  | .nan => true
  | _ => false

/-- The comparison `x > 0` on a Number (`NaN > 0` is `false`). -/
def JSNumber.gtZero : JSNumber → Bool
  | .nan => false
  | .inf negative => !negative
  | .fin mantissa _ => decide (0 < mantissa)

/-- The time value of a `Date` object in milliseconds since the epoch; `none` is `NaN`. -/
abbrev TimeValue := Option Int

/-- The JavaScript values that occur as property values of expense records. -/
inductive Value
  | undefined
  | null
  | bool (b : Bool)
  | num (n : JSNumber)
  | str (s : String)
  | date (tv : TimeValue)
  deriving DecidableEq, Repr

/-! ## Objects -/

/-- Look a key up in a property list (first binding). -/
def propsGet (k : String) : List (String × Value) → Option Value
  | [] => none
  | (k', v) :: ps => if k' = k then some v else propsGet k ps

/-- Define a property: overwrite the value in place when the key exists, append otherwise. -/
def propsSet (k : String) (v : Value) : List (String × Value) → List (String × Value)
  | [] => [(k, v)]
  | (k', v') :: ps => if k' = k then (k', v) :: ps else (k', v') :: propsSet k v ps

theorem propsSet_keys (k : String) (v : Value) (ps : List (String × Value)) :
    (propsSet k v ps).map Prod.fst =
      if k ∈ ps.map Prod.fst then ps.map Prod.fst else ps.map Prod.fst ++ [k] := by
  induction ps with
  | nil => simp [propsSet]
  | cons p ps ih =>
    obtain ⟨k', v'⟩ := p
    by_cases h : k' = k
    · subst h; simp [propsSet]
    · have h' : ¬ k = k' := fun e => h e.symm
      by_cases hm : k ∈ ps.map Prod.fst
      · simp only [propsSet, h, if_false, List.map_cons, ih, hm, if_true, List.mem_cons, or_true]
      · simp only [propsSet, h, if_false, List.map_cons, ih, hm, List.mem_cons, h', or_self,
          List.cons_append]

theorem propsSet_nodup (k : String) (v : Value) (ps : List (String × Value))
    (h : (ps.map Prod.fst).Nodup) : ((propsSet k v ps).map Prod.fst).Nodup := by
  rw [propsSet_keys]
  split
  · exact h
  · rename_i hk
    rw [List.nodup_append]
    refine ⟨h, List.nodup_singleton k, ?_⟩
    intro a ha hb
    simp only [List.mem_singleton] at hb
    subst hb
    exact hk ha

theorem propsGet_set (k k' : String) (v : Value) (ps : List (String × Value)) :
    propsGet k' (propsSet k v ps) = if k = k' then some v else propsGet k' ps := by
  induction ps with
  | nil => simp [propsSet, propsGet]
  | cons p ps ih =>
    obtain ⟨k0, v0⟩ := p
    by_cases h : k0 = k
    · subst h
      by_cases h2 : k0 = k' <;> simp [propsSet, propsGet, h2]
    · by_cases h2 : k0 = k'
      · subst h2
        have : ¬ k = k0 := fun e => h e.symm
        simp [propsSet, propsGet, h, this]
      · simp [propsSet, propsGet, h, h2, ih]

theorem propsGet_eq_none (k : String) (ps : List (String × Value))
    (h : k ∉ ps.map Prod.fst) : propsGet k ps = none := by
  induction ps with
  | nil => rfl
  | cons p ps ih =>
    obtain ⟨k0, v0⟩ := p
    simp only [List.map_cons, List.mem_cons, not_or] at h
    have h0 : ¬ k0 = k := fun e => h.1 e.symm
    simp [propsGet, h0, ih h.2]

/-- A JavaScript object: its own properties in insertion order, keys pairwise distinct. -/
structure Obj where
  props : List (String × Value)
  nodup : (props.map Prod.fst).Nodup

instance : DecidableEq Obj := fun a b =>
  decidable_of_iff (a.props = b.props)
    ⟨fun h => by cases a; cases b; cases h; rfl, fun h => by rw [h]⟩

/-- The object literal `{}`. -/
def Obj.empty : Obj := ⟨[], List.nodup_nil⟩

/-- The own property keys, in order. -/
def Obj.keys (o : Obj) : List String := o.props.map Prod.fst

/-- The own property `k`, or `none` when the object has no such property. -/
def Obj.get? (o : Obj) (k : String) : Option Value := propsGet k o.props

/-- The property read `o.k`: `undefined` when the object has no such property. -/
def Obj.prop (o : Obj) (k : String) : Value := (o.get? k).getD Value.undefined

/-- Create or overwrite the own property `k`. -/
def Obj.set (o : Obj) (k : String) (v : Value) : Obj :=
  ⟨propsSet k v o.props, propsSet_nodup k v o.props o.nodup⟩

/-- The spread `{ ...target, ...source }` onto an already built `target`: every own property
of `source`, in order, is created or overwritten on the target. -/
def Obj.spread (target source : Obj) : Obj :=
  source.props.foldl (fun acc p => acc.set p.1 p.2) target

/-- An object literal `{ k1: v1, k2: v2, ... }`. -/
def Obj.ofList (l : List (String × Value)) : Obj :=
  l.foldl (fun acc p => acc.set p.1 p.2) Obj.empty

/-- Spreading `undefined` copies nothing: `{ ...x }` for an optional object `x`. -/
def Obj.ofOption : Option Obj → Obj
  | some o => o
  | none => Obj.empty

/-! ## Built-ins: dates, string-to-number conversion, `trim` -/

/-- Leap years of the proleptic Gregorian calendar. -/
def isLeapYear (y : Nat) : Bool := (y % 4 == 0 && y % 100 != 0) || y % 400 == 0

/-- The number of days of month `m` (1 to 12) of year `y`; `0` for any other `m`. -/
def daysInMonth (y m : Nat) : Nat :=
  match m with
  | 1 => 31
  | 2 => if isLeapYear y then 29 else 28
  | 3 => 31
  | 4 => 30
  | 5 => 31
  | 6 => 30
  | 7 => 31
  | 8 => 31
  | 9 => 30
  | 10 => 31
  | 11 => 30
  | 12 => 31
  | _ => 0

/-- The day number of the first day of month `m` within year `y` (0 for January). -/
def daysBeforeMonth (y m : Nat) : Nat :=
  let leap := if isLeapYear y then 1 else 0
  match m with
  | 1 => 0
  | 2 => 31
  | 3 => 59 + leap
  | 4 => 90 + leap
  | 5 => 120 + leap
  | 6 => 151 + leap
  | 7 => 181 + leap
  | 8 => 212 + leap
  | 9 => 243 + leap
  | 10 => 273 + leap
  | 11 => 304 + leap
  | _ => 334 + leap

/-- The function `DayFromYear` of ECMA-262: the day number of 1 January of year `y`. -/
def dayFromYear (y : Int) : Int :=
  365 * (y - 1970) + (y - 1969) / 4 - (y - 1901) / 100 + (y - 1601) / 400

/-- The time value of midnight UTC at the start of day `d` of month `m` of year `y`. -/
def utcTime (y m d : Nat) : Int :=
  (dayFromYear y + daysBeforeMonth y m + ((d : Int) - 1)) * 86400000

/-- The value of a non-empty string of ASCII decimal digits. -/
def digitsValue (cs : List Char) : Option Nat :=
  if cs ≠ [] ∧ cs.all (fun c => decide (48 ≤ c.toNat ∧ c.toNat ≤ 57)) = true then
    some (cs.foldl (fun n c => 10 * n + (c.toNat - 48)) 0)
  else none

/-- The date built from year, month and day texts, when the month is 01 to 12 and the day
exists in that month. -/
def dateOfParts (ys ms ds : List Char) : Option Int :=
  match digitsValue ys, digitsValue ms, digitsValue ds with
  | some y, some m, some d =>
    if 1 ≤ m ∧ m ≤ 12 ∧ 1 ≤ d ∧ d ≤ daysInMonth y m then some (utcTime y m d) else none
  | _, _, _ => none

/-- The date-only forms of the Date Time String Format of ECMA-262, read as UTC: `YYYY`,
`YYYY-MM` and `YYYY-MM-DD` with a month from 01 to 12 and a day that exists in that month.
Every other string gives `none` here and is left to the engine. -/
def parseDateOnly (s : String) : Option Int :=
  match s.toList with
  | [y1, y2, y3, y4] => dateOfParts [y1, y2, y3, y4] ['0', '1'] ['0', '1']
  | [y1, y2, y3, y4, s1, m1, m2] =>
    if s1 = '-' then dateOfParts [y1, y2, y3, y4] [m1, m2] ['0', '1'] else none
  | [y1, y2, y3, y4, s1, m1, m2, s2, d1, d2] =>
    if s1 = '-' ∧ s2 = '-' then dateOfParts [y1, y2, y3, y4] [m1, m2] [d1, d2] else none
  | _ => none

/-- The engine-dependent part of the built-ins. -/
structure Engine where
  /-- String-to-number conversion (the unary `+`) of a string that is not a plain run of at
  most 15 decimal digits: signs, fractions, exponents, blanks, `Infinity`, rounding. -/
  stringToNumber : String → JSNumber
  /-- The result of `Date.parse` on a string that is not one of the strict date-only forms:
  date-times, expanded years and the engine's own fallback formats; `none` is `NaN`. -/
  dateParse : String → Option Int

/-- The unary plus `+s` on a string. A run of 1 to 15 decimal digits is that integer, which a
Number holds exactly; everything else is the engine's conversion. -/
def toNumber (E : Engine) (s : String) : JSNumber :=
  match digitsValue s.toList with
  | some n => if s.toList.length ≤ 15 then .fin n 0 else E.stringToNumber s
  | none => E.stringToNumber s

/-- The abstract operation `TimeClip`: a time value beyond 8.64e15 ms becomes `NaN`. -/
def timeClip : Option Int → TimeValue
  | some t => if t.natAbs ≤ 8640000000000000 then some t else none
  | none => none

/-- The constructor call `new Date(s)` on a string: the time value of the new Date. -/
def newDate (E : Engine) (s : String) : TimeValue :=
  match parseDateOnly s with
  | some t => timeClip (some t)
  | none => timeClip (E.dateParse s)

/-- The test `date.toString() !== 'Invalid Date'`: `toString` gives `'Invalid Date'` exactly
for a `NaN` time value, and a text starting with a weekday name otherwise. -/
def toStringIsNotInvalidDate (tv : TimeValue) : Bool := tv.isSome

/-- The code points `trim` strips: WhiteSpace and LineTerminator of ECMA-262. -/
def isTrimmable (c : Char) : Bool :=
  let n := c.toNat
  n == 0x9 || n == 0xA || n == 0xB || n == 0xC || n == 0xD || n == 0x20 || n == 0xA0 ||
  n == 0x1680 || (0x2000 ≤ n && n ≤ 0x200A) || n == 0x2028 || n == 0x2029 || n == 0x202F ||
  n == 0x205F || n == 0x3000 || n == 0xFEFF

/-- The method `String.prototype.trim`. -/
def trim (s : String) : String :=
  String.mk ((s.toList.dropWhile isTrimmable).reverse.dropWhile isTrimmable).reverse

/-- The property `length` of a string: its number of UTF-16 code units. -/
def length (s : String) : Nat :=
  (s.toList.map (fun c => if c.toNat < 0x10000 then 1 else 2)).sum

/-! ## Arrays and the expense store (`src/expenses-context.js`) -/

/-- A JavaScript array of records: the elements at indices `0 .. length-1`, and the own
properties whose key is not an array index (such as `"-1"`). Iteration, `length`, spread,
`filter` and `findIndex` see the elements only. -/
structure JSArray where
  elems : List Obj
  extra : List (String × Obj)
  deriving DecidableEq

/-- An array literal or any freshly built array: no non-index property. -/
def JSArray.ofList (l : List Obj) : JSArray := ⟨l, []⟩

/-- The method `Array.prototype.findIndex` on the elements: the first index whose element
satisfies `p`; `none` stands for the result `-1`. -/
def findIndex (p : Obj → Bool) : List Obj → Option Nat
  | [] => none
  | e :: es => if p e then some 0 else (findIndex p es).map (· + 1)

/-- The read `state[updateIndex]` where `updateIndex` came from `findIndex`: an element for
an index, the own property `"-1"` (normally absent, hence `undefined`) for `-1`. -/
def JSArray.read (a : JSArray) : Option Nat → Option Obj
  | some i => a.elems[i]?
  | none => (a.extra.find? (fun p => p.1 == "-1")).map Prod.snd

/-- The write `copy[updateIndex] = v` on the fresh copy `[...state]`: it replaces the element
for an index below the length, and creates the non-index property `"-1"` for `-1`. -/
def JSArray.assign (copy : List Obj) (v : Obj) : Option Nat → JSArray
  | some i => ⟨copy.set i v, []⟩
  | none => ⟨copy, [("-1", v)]⟩

/-- The seed collection `DUMMY_EXPENSES`. -/
def DUMMY_EXPENSES : JSArray :=
  JSArray.ofList
    [ Obj.ofList [("id", .str "e1"), ("description", .str "Groceries"),
        ("amount", .num (.fin 650 0)), ("date", .date (parseDateOnly "2025-04-01"))],
      Obj.ofList [("id", .str "e2"), ("description", .str "Recharge"),
        ("amount", .num (.fin 199 0)), ("date", .date (parseDateOnly "2025-04-03"))] ]

/-- The actions the store dispatches; `other` is any action whose `type` is none of
`'ADD'`, `'UPDATE'`, `'DELETE'`. Ids are strings. -/
inductive Action
  | ADD (payload : Obj)
  | UPDATE (id : String) (data : Obj)
  | DELETE (payload : String)
  | other

/-- The reducer `expensesReducer(state, action)`. `rnd` is the string that
`Math.random().toString()` evaluates to during the call (read by the `'ADD'` case only). -/
def expensesReducer (rnd : String) (state : JSArray) : Action → JSArray
  | .ADD payload =>
    let id := rnd
    JSArray.ofList ((Obj.empty.spread payload).set "id" (.str id) :: state.elems)
  | .UPDATE id data =>
    let updateIndex := findIndex (fun e => e.prop "id" == .str id) state.elems
    let updatedExpense := (Obj.empty.spread (Obj.ofOption (state.read updateIndex))).spread data
    let updatedExpenses := state.elems
    JSArray.assign updatedExpenses updatedExpense updateIndex
  | .DELETE payload =>
    JSArray.ofList (state.elems.filter (fun expense => expense.prop "id" != .str payload))
  | .other => state

/-- The wrapper `addExpense(expenseData)`: the state after dispatching `'ADD'`. -/
def addExpense (rnd : String) (state : JSArray) (expenseData : Obj) : JSArray :=
  expensesReducer rnd state (.ADD expenseData)

/-- The wrapper `deleteExpense(id)`: the state after dispatching `'DELETE'`. -/
def deleteExpense (rnd : String) (state : JSArray) (id : String) : JSArray :=
  expensesReducer rnd state (.DELETE id)

/-- The wrapper `updateExpense(id, expenseData)`: the state after dispatching `'UPDATE'`. -/
def updateExpense (rnd : String) (state : JSArray) (id : String) (expenseData : Obj) : JSArray :=
  expensesReducer rnd state (.UPDATE id expenseData)

/-- The ids of a collection, in order (the value of each record's `id` property). -/
def ids (l : List Obj) : List Value := l.map (fun e => e.prop "id")

/-! ## The expense form (`src/ExpenseForm.js`) -/

/-- One field of the form state: the text typed and the flag of the last validation. -/
structure Field where
  value : String
  isValid : Bool
  deriving DecidableEq, Repr

/-- The form state `inputs`. -/
structure Inputs where
  amount : Field
  date : Field
  description : Field
  deriving DecidableEq, Repr

/-- The input identifiers bound to `inputChangedHandler`. -/
inductive InputIdentifier
  | amount
  | date
  | description
  deriving DecidableEq, Repr

/-- The state after `inputChangedHandler(inputIdentifier, enteredValue)`. -/
def inputChangedHandler (inputIdentifier : InputIdentifier) (enteredValue : String)
    (curInputs : Inputs) : Inputs :=
  match inputIdentifier with
  | .amount => { curInputs with amount := { value := enteredValue, isValid := true } }
  | .date => { curInputs with date := { value := enteredValue, isValid := true } }
  | .description => { curInputs with description := { value := enteredValue, isValid := true } }

/-- What one call of `submitHandler` does: either it calls `onSubmit(expenseData)` and leaves
the state alone, or it queues the state update `setInputs(updater)` and returns. -/
inductive Outcome
  | onSubmit (expenseData : Obj)
  | setInputs (updater : Inputs → Inputs)

/-- The object `expenseData` built at the top of `submitHandler`. -/
def expenseData (E : Engine) (inputs : Inputs) : Obj :=
  Obj.ofList
    [ ("amount", .num (toNumber E inputs.amount.value)),
      ("date", .date (newDate E inputs.date.value)),
      ("description", .str inputs.description.value) ]

/-- The constant `amountIsValid` of `submitHandler`. -/
def amountIsValid (E : Engine) (inputs : Inputs) : Bool :=
  !isNaN (toNumber E inputs.amount.value) && (toNumber E inputs.amount.value).gtZero

/-- The constant `dateIsValid` of `submitHandler`. -/
def dateIsValid (E : Engine) (inputs : Inputs) : Bool :=
  toStringIsNotInvalidDate (newDate E inputs.date.value)

/-- The constant `descriptionIsValid` of `submitHandler`. -/
def descriptionIsValid (inputs : Inputs) : Bool :=
  decide (length (trim inputs.description.value) > 0)

/-- The handler `submitHandler()` run with the form state `inputs`. -/
def submitHandler (E : Engine) (inputs : Inputs) : Outcome :=
  if !amountIsValid E inputs || !dateIsValid E inputs || !descriptionIsValid inputs then
    .setInputs (fun curInputs =>
      { amount := { value := curInputs.amount.value, isValid := amountIsValid E inputs },
        date := { value := curInputs.date.value, isValid := dateIsValid E inputs },
        description :=
          { value := curInputs.description.value, isValid := descriptionIsValid inputs } })
  else
    .onSubmit (expenseData E inputs)

/-- The payload handed to `onSubmit`, if the handler called it. -/
def Outcome.emitted : Outcome → Option Obj
  | .onSubmit expenseData => some expenseData
  | .setInputs _ => none

/-- The form state once the outcome has taken effect on the current state. -/
def Outcome.apply : Outcome → Inputs → Inputs
  | .onSubmit _, curInputs => curInputs
  | .setInputs updater, curInputs => updater curInputs

/-- The flag `formIsInvalid` computed on each render. -/
def formIsInvalid (inputs : Inputs) : Bool :=
  !inputs.amount.isValid || !inputs.date.isValid || !inputs.description.isValid

/-- The wording of the specification for a valid date text: a `YYYY-MM-DD` string that
denotes a real calendar date. -/
def isRealCalendarDate (s : String) : Bool :=
  match s.toList with
  | [y1, y2, y3, y4, s1, m1, m2, s2, d1, d2] =>
    s1 == '-' && s2 == '-' &&
      (match digitsValue [y1, y2, y3, y4], digitsValue [m1, m2], digitsValue [d1, d2] with
       | some y, some m, some d => decide (1 ≤ m ∧ m ≤ 12 ∧ 1 ≤ d ∧ d ≤ daysInMonth y m)
       | _, _, _ => false)
  | _ => false

/-- An engine that accepts nothing beyond the fragment every engine agrees on: other number
texts convert to `NaN`, other date texts to an invalid date. -/
def Engine.strict : Engine := ⟨fun _ => .nan, fun _ => none⟩

/-- The payload `{ description: 'Coffee', amount: 45, date: new Date('2025-04-05') }`. -/
def coffee : Obj :=
  Obj.ofList [("description", .str "Coffee"), ("amount", .num (.fin 45 0)),
    ("date", .date (parseDateOnly "2025-04-05"))]

/-! ## Lemmas on objects and `findIndex` -/

theorem Obj.get?_set (o : Obj) (k k' : String) (v : Value) :
    (o.set k v).get? k' = if k = k' then some v else o.get? k' :=
  propsGet_set k k' v o.props

theorem Obj.foldl_set_get? (l : List (String × Value)) (hl : (l.map Prod.fst).Nodup)
    (t : Obj) (k : String) :
    (l.foldl (fun acc p => acc.set p.1 p.2) t).get? k =
      match propsGet k l with
      | some v => some v
      | none => t.get? k := by
  induction l generalizing t with
  | nil => simp [propsGet]
  | cons p l ih =>
    obtain ⟨k0, v0⟩ := p
    simp only [List.map_cons, List.nodup_cons] at hl
    simp only [List.foldl_cons]
    rw [ih hl.2]
    by_cases h : k0 = k
    · subst h
      rw [propsGet_eq_none k0 l hl.1]
      simp [propsGet, Obj.get?_set]
    · simp [propsGet, h, Obj.get?_set]

/-- Reading a spread: the source's property when it has one, the target's otherwise. -/
theorem Obj.get?_spread (t s : Obj) (k : String) :
    (t.spread s).get? k =
      match s.get? k with
      | some v => some v
      | none => t.get? k :=
  Obj.foldl_set_get? s.props s.nodup t k

theorem Obj.get?_empty (k : String) : Obj.empty.get? k = none := rfl

theorem Obj.get?_copy (o : Obj) (k : String) : (Obj.empty.spread o).get? k = o.get? k := by
  rw [Obj.get?_spread, Obj.get?_empty]
  cases o.get? k <;> rfl

theorem Obj.get?_merge (o data : Obj) (k : String) :
    ((Obj.empty.spread o).spread data).get? k =
      match data.get? k with
      | some v => some v
      | none => o.get? k := by
  rw [Obj.get?_spread, Obj.get?_copy]

theorem Obj.prop_merge_of_none (o data : Obj) (k : String) (h : data.get? k = none) :
    ((Obj.empty.spread o).spread data).prop k = o.prop k := by
  unfold Obj.prop
  rw [Obj.get?_merge, h]

theorem findIndex_none {p : Obj → Bool} {l : List Obj} :
    findIndex p l = none ↔ ∀ e ∈ l, p e = false := by
  induction l with
  | nil => simp [findIndex]
  | cons a l ih =>
    by_cases h : p a = true
    · simp [findIndex, h]
    · simp only [Bool.not_eq_true] at h
      simp [findIndex, h, ih]

theorem findIndex_some {p : Obj → Bool} {l : List Obj} {i : Nat} (h : findIndex p l = some i) :
    ∃ e, l[i]? = some e ∧ p e = true ∧ ∀ j e', j < i → l[j]? = some e' → p e' = false := by
  induction l generalizing i with
  | nil => simp [findIndex] at h
  | cons a l ih =>
    by_cases hp : p a = true
    · simp only [findIndex, hp, if_true, Option.some.injEq] at h
      subst h
      exact ⟨a, by simp, hp, fun j e' hj => absurd hj (Nat.not_lt_zero j)⟩
    · simp only [Bool.not_eq_true] at hp
      simp only [findIndex, hp, Bool.false_eq_true, if_false, Option.map_eq_some'] at h
      obtain ⟨i', hi', rfl⟩ := h
      obtain ⟨e, he, hpe, hlt⟩ := ih hi'
      refine ⟨e, by simpa using he, hpe, ?_⟩
      intro j e' hj hje
      cases j with
      | zero =>
        simp only [List.getElem?_cons_zero, Option.some.injEq] at hje
        subst hje
        exact hp
      | succ j =>
        simp only [List.getElem?_cons_succ] at hje
        exact hlt j e' (by omega) hje

theorem findIndex_isSome_of_mem {p : Obj → Bool} {l : List Obj}
    (h : ∃ e ∈ l, p e = true) : ∃ i, findIndex p l = some i := by
  cases hf : findIndex p l with
  | some i => exact ⟨i, rfl⟩
  | none =>
    obtain ⟨e, he, hpe⟩ := h
    rw [findIndex_none.mp hf e he] at hpe
    exact absurd hpe (by simp)

theorem getElem?_lt_of_eq_some {l : List Obj} {i : Nat} {e : Obj} (h : l[i]? = some e) :
    i < l.length := by
  rcases Nat.lt_or_ge i l.length with hlt | hge
  · exact hlt
  · rw [List.getElem?_eq_none hge] at h
    exact absurd h (by simp)

theorem update_found (rnd : String) (state : JSArray) (id : String) (data : Obj) (i : Nat)
    (h : findIndex (fun e => e.prop "id" == .str id) state.elems = some i) :
    (expensesReducer rnd state (.UPDATE id data)).elems =
      state.elems.set i ((Obj.empty.spread (Obj.ofOption state.elems[i]?)).spread data) := by
  simp only [expensesReducer, h, JSArray.read, JSArray.assign]

theorem update_not_found (rnd : String) (state : JSArray) (id : String) (data : Obj)
    (h : findIndex (fun e => e.prop "id" == .str id) state.elems = none) :
    expensesReducer rnd state (.UPDATE id data) =
      ⟨state.elems, [("-1", (Obj.empty.spread (Obj.ofOption
        ((state.extra.find? (fun p => p.1 == "-1")).map Prod.snd))).spread data)]⟩ := by
  simp only [expensesReducer, h, JSArray.read, JSArray.assign]

theorem ids_set_of_prop_eq (l : List Obj) (i : Nat) (old new : Obj) (h : l[i]? = some old)
    (hp : new.prop "id" = old.prop "id") : ids (l.set i new) = ids l := by
  unfold ids
  rw [List.map_set]
  apply List.ext_getElem?
  intro j
  by_cases hj : i = j
  · subst hj
    rw [List.getElem?_set_self (by simpa using getElem?_lt_of_eq_some h)]
    simp [List.getElem?_map, h, hp]
  · rw [List.getElem?_set_ne hj]

/-! ## The expense store -/

/-- C1: for every collection `old`, every payload `data` and every drawn id, the `'ADD'` case
returns a collection one longer than `old`, whose record at index 0 has the drawn id as `id`
and every other property (in particular description, amount and date) exactly as in `data`,
and whose records at indices `1 .. len(old)` are those of `old`, in the same order. -/
theorem add_prepends_record (rnd : String) (old : JSArray) (data : Obj) :
    ∃ r : Obj,
      (expensesReducer rnd old (.ADD data)).elems = r :: old.elems ∧
      (expensesReducer rnd old (.ADD data)).elems.length = old.elems.length + 1 ∧
      (expensesReducer rnd old (.ADD data)).elems[0]? = some r ∧
      r.get? "id" = some (.str rnd) ∧
      r.get? "description" = data.get? "description" ∧
      r.get? "amount" = data.get? "amount" ∧
      r.get? "date" = data.get? "date" ∧
      (∀ k : String, k ≠ "id" → r.get? k = data.get? k) ∧
      (∀ i : Nat, (expensesReducer rnd old (.ADD data)).elems[i + 1]? = old.elems[i]?) := by
  have hk : ∀ k : String, k ≠ "id" →
      ((Obj.empty.spread data).set "id" (.str rnd)).get? k = data.get? k := by
    intro k hk
    rw [Obj.get?_set, if_neg (fun e => hk e.symm), Obj.get?_copy]
  refine ⟨(Obj.empty.spread data).set "id" (.str rnd), rfl, ?_, ?_, ?_, ?_, ?_, ?_, hk, ?_⟩
  · simp [expensesReducer, JSArray.ofList]
  · simp [expensesReducer, JSArray.ofList]
  · rw [Obj.get?_set, if_pos rfl]
  · exact hk _ (by decide)
  · exact hk _ (by decide)
  · exact hk _ (by decide)
  · intro i
    simp [expensesReducer, JSArray.ofList]

/-- C2, as stated, fails: the reducer takes whatever string `Math.random().toString()` gives.
Adding twice with the same draw `"0.5"` to the seed collection yields, from a collection
with pairwise distinct ids, a new record whose id is that of an old record. -/
theorem add_id_can_collide :
    (ids (addExpense "0.5" DUMMY_EXPENSES coffee).elems).Nodup ∧
    ((addExpense "0.5" (addExpense "0.5" DUMMY_EXPENSES coffee) coffee).elems.head?.map
        (fun r => r.prop "id")) = some (.str "0.5") ∧
    Value.str "0.5" ∈ ids (addExpense "0.5" DUMMY_EXPENSES coffee).elems ∧
    ¬ (ids (addExpense "0.5" (addExpense "0.5" DUMMY_EXPENSES coffee) coffee).elems).Nodup := by
  decide

/-- C2, amended: the id of the new record is the drawn string; whenever that string is not the
id of any record of `old`, and the ids of `old` are pairwise distinct, the ids of the
collection returned by `'ADD'` are pairwise distinct. -/
theorem add_keeps_ids_distinct (rnd : String) (old : JSArray) (data : Obj)
    (hfresh : Value.str rnd ∉ ids old.elems) (hd : (ids old.elems).Nodup) :
    ids (expensesReducer rnd old (.ADD data)).elems = Value.str rnd :: ids old.elems ∧
    (ids (expensesReducer rnd old (.ADD data)).elems).Nodup := by
  have h : ids (expensesReducer rnd old (.ADD data)).elems = Value.str rnd :: ids old.elems := by
    simp [expensesReducer, JSArray.ofList, ids, Obj.prop, Obj.get?_set]
  rw [h]
  exact ⟨rfl, List.nodup_cons.mpr ⟨hfresh, hd⟩⟩

theorem add_keeps_ids_distinct_witness :
    (ids (expensesReducer "0.5" DUMMY_EXPENSES (.ADD coffee)).elems =
        Value.str "0.5" :: ids DUMMY_EXPENSES.elems) ∧
    (ids (expensesReducer "0.5" DUMMY_EXPENSES (.ADD coffee)).elems).Nodup :=
  add_keeps_ids_distinct "0.5" DUMMY_EXPENSES coffee (by decide) (by decide)

/-- C3: for every collection, every id that matches at least one record and every
`partialData`, the `'UPDATE'` case returns a collection of the same length; with `i` the index
of the first record with that id, every record at another index is unchanged, and the record
at `i` has each property equal to `partialData`'s value when `partialData` has that property
and to the old record's value otherwise. -/
theorem update_existing_merges (rnd : String) (state : JSArray) (id : String) (data : Obj)
    (h : ∃ e ∈ state.elems, e.prop "id" = .str id) :
    ∃ (i : Nat) (old new : Obj),
      state.elems[i]? = some old ∧ old.prop "id" = .str id ∧
      (∀ (j : Nat) (e : Obj), j < i → state.elems[j]? = some e → e.prop "id" ≠ .str id) ∧
      (expensesReducer rnd state (.UPDATE id data)).elems.length = state.elems.length ∧
      (expensesReducer rnd state (.UPDATE id data)).elems[i]? = some new ∧
      (∀ k : String, new.get? k =
        match data.get? k with
        | some v => some v
        | none => old.get? k) ∧
      (∀ j : Nat, j ≠ i →
        (expensesReducer rnd state (.UPDATE id data)).elems[j]? = state.elems[j]?) := by
  obtain ⟨i, hi⟩ := findIndex_isSome_of_mem (p := fun e => e.prop "id" == .str id)
    (by obtain ⟨e, he, hid⟩ := h; exact ⟨e, he, by simp [hid]⟩)
  obtain ⟨old, hold, hp, hlt⟩ := findIndex_some hi
  have hlen := getElem?_lt_of_eq_some hold
  rw [update_found rnd state id data i hi, hold]
  refine ⟨i, old, (Obj.empty.spread old).spread data, hold, by simpa using hp, ?_, ?_, ?_, ?_, ?_⟩
  · intro j e hj hje
    simpa using hlt j e hj hje
  · simp
  · simp [Obj.ofOption, List.getElem?_set_self hlen]
  · intro k
    exact Obj.get?_merge old data k
  · intro j hj
    rw [List.getElem?_set_ne (fun e => hj e.symm)]

theorem update_existing_merges_witness :
    ∃ (i : Nat) (old new : Obj),
      DUMMY_EXPENSES.elems[i]? = some old ∧ old.prop "id" = .str "e2" ∧
      (∀ (j : Nat) (e : Obj), j < i → DUMMY_EXPENSES.elems[j]? = some e →
        e.prop "id" ≠ .str "e2") ∧
      (expensesReducer "0.5" DUMMY_EXPENSES (.UPDATE "e2" coffee)).elems.length =
        DUMMY_EXPENSES.elems.length ∧
      (expensesReducer "0.5" DUMMY_EXPENSES (.UPDATE "e2" coffee)).elems[i]? = some new ∧
      (∀ k : String, new.get? k =
        match coffee.get? k with
        | some v => some v
        | none => old.get? k) ∧
      (∀ j : Nat, j ≠ i →
        (expensesReducer "0.5" DUMMY_EXPENSES (.UPDATE "e2" coffee)).elems[j]? =
          DUMMY_EXPENSES.elems[j]?) :=
  update_existing_merges "0.5" DUMMY_EXPENSES "e2" coffee
    ⟨Obj.ofList [("id", .str "e2"), ("description", .str "Recharge"),
        ("amount", .num (.fin 199 0)), ("date", .date (parseDateOnly "2025-04-03"))],
      by decide, by decide⟩

/-- C4, as stated, fails: with no matching record `findIndex` gives `-1` and the write
`updatedExpenses[-1] = updatedExpense` stores the object built from `partialData` on the
returned array under the non-index key `"-1"`. Updating the unknown id `e9` of the seed
collection returns an array that is not equal to the input and that carries `{ ...coffee }`. -/
theorem update_missing_attaches_merged :
    (∀ e ∈ DUMMY_EXPENSES.elems, e.prop "id" ≠ .str "e9") ∧
    expensesReducer "0.5" DUMMY_EXPENSES (.UPDATE "e9" coffee) ≠ DUMMY_EXPENSES ∧
    (expensesReducer "0.5" DUMMY_EXPENSES (.UPDATE "e9" coffee)).extra = [("-1", coffee)] := by
  decide

/-- C4, amended: for every collection, every id that matches no record and every
`partialData`, the array returned by the `'UPDATE'` case has the elements of the input: same
length, same record at every index, same order, and every element of it is an element of the
input (no element is built from `partialData`). -/
theorem update_missing_keeps_collection (rnd : String) (state : JSArray) (id : String)
    (data : Obj) (h : ∀ e ∈ state.elems, e.prop "id" ≠ .str id) :
    (expensesReducer rnd state (.UPDATE id data)).elems = state.elems ∧
    (expensesReducer rnd state (.UPDATE id data)).elems.length = state.elems.length ∧
    (∀ i : Nat, (expensesReducer rnd state (.UPDATE id data)).elems[i]? = state.elems[i]?) ∧
    (∀ r ∈ (expensesReducer rnd state (.UPDATE id data)).elems, r ∈ state.elems) := by
  have hn : findIndex (fun e => e.prop "id" == .str id) state.elems = none := by
    rw [findIndex_none]
    intro e he
    simpa using h e he
  rw [update_not_found rnd state id data hn]
  exact ⟨rfl, rfl, fun _ => rfl, fun _ hr => hr⟩

theorem update_missing_keeps_collection_witness :
    (expensesReducer "0.5" DUMMY_EXPENSES (.UPDATE "e9" coffee)).elems = DUMMY_EXPENSES.elems ∧
    (expensesReducer "0.5" DUMMY_EXPENSES (.UPDATE "e9" coffee)).elems.length =
      DUMMY_EXPENSES.elems.length ∧
    (∀ i : Nat, (expensesReducer "0.5" DUMMY_EXPENSES (.UPDATE "e9" coffee)).elems[i]? =
      DUMMY_EXPENSES.elems[i]?) ∧
    (∀ r ∈ (expensesReducer "0.5" DUMMY_EXPENSES (.UPDATE "e9" coffee)).elems,
      r ∈ DUMMY_EXPENSES.elems) :=
  update_missing_keeps_collection "0.5" DUMMY_EXPENSES "e9" coffee (by decide)

/-- C5, as stated, fails: `partialData` is spread over the old record, `id` included. Updating
the seed record `e1` with `{ id: 'e3', amount: 7 }` leaves a collection whose ids are
`e3, e2` instead of `e1, e2`. -/
theorem update_can_change_id :
    ids DUMMY_EXPENSES.elems = [.str "e1", .str "e2"] ∧
    ids (updateExpense "0.5" DUMMY_EXPENSES "e1"
      (Obj.ofList [("id", .str "e3"), ("amount", .num (.fin 7 0))])).elems =
        [.str "e3", .str "e2"] := by
  decide

/-- C5, amended: for every collection, every id present in it and every `partialData` that has
no `id` property, the record at the targeted position of the collection returned by
`'UPDATE'` still has that id, and the list of ids of the collection is unchanged. -/
theorem update_keeps_id (rnd : String) (state : JSArray) (id : String) (data : Obj)
    (h : ∃ e ∈ state.elems, e.prop "id" = .str id) (hd : data.get? "id" = none) :
    ∃ (i : Nat) (old new : Obj),
      state.elems[i]? = some old ∧ old.prop "id" = .str id ∧
      (updateExpense rnd state id data).elems[i]? = some new ∧ new.prop "id" = .str id ∧
      ids (updateExpense rnd state id data).elems = ids state.elems := by
  obtain ⟨i, hi⟩ := findIndex_isSome_of_mem (p := fun e => e.prop "id" == .str id)
    (by obtain ⟨e, he, hid⟩ := h; exact ⟨e, he, by simp [hid]⟩)
  obtain ⟨old, hold, hp, -⟩ := findIndex_some hi
  have hlen := getElem?_lt_of_eq_some hold
  have hp' : old.prop "id" = .str id := by simpa using hp
  have hm : ((Obj.empty.spread old).spread data).prop "id" = old.prop "id" :=
    Obj.prop_merge_of_none old data "id" hd
  unfold updateExpense
  rw [update_found rnd state id data i hi, hold]
  refine ⟨i, old, (Obj.empty.spread old).spread data, hold, hp', ?_, ?_, ?_⟩
  · simp [Obj.ofOption, List.getElem?_set_self hlen]
  · rw [hm, hp']
  · exact ids_set_of_prop_eq state.elems i old _ hold hm

theorem update_keeps_id_witness :
    ∃ (i : Nat) (old new : Obj),
      DUMMY_EXPENSES.elems[i]? = some old ∧ old.prop "id" = .str "e2" ∧
      (updateExpense "0.5" DUMMY_EXPENSES "e2" coffee).elems[i]? = some new ∧
      new.prop "id" = .str "e2" ∧
      ids (updateExpense "0.5" DUMMY_EXPENSES "e2" coffee).elems = ids DUMMY_EXPENSES.elems :=
  update_keeps_id "0.5" DUMMY_EXPENSES "e2" coffee
    ⟨Obj.ofList [("id", .str "e2"), ("description", .str "Recharge"),
        ("amount", .num (.fin 199 0)), ("date", .date (parseDateOnly "2025-04-03"))],
      by decide, by decide⟩ (by decide)

theorem filter_removes_one (id : Value) (l : List Obj) (hd : (ids l).Nodup)
    (h : ∃ e ∈ l, e.prop "id" = id) :
    ∃ (l1 : List Obj) (r : Obj) (l2 : List Obj), l = l1 ++ r :: l2 ∧ r.prop "id" = id ∧
      l.filter (fun expense => expense.prop "id" != id) = l1 ++ l2 := by
  induction l with
  | nil => obtain ⟨e, he, -⟩ := h; simp at he
  | cons a l ih =>
    simp only [ids, List.map_cons, List.nodup_cons, List.mem_map, not_exists, not_and] at hd
    by_cases ha : a.prop "id" = id
    · refine ⟨[], a, l, rfl, ha, ?_⟩
      have hrest : l.filter (fun expense => expense.prop "id" != id) = l := by
        rw [List.filter_eq_self]
        intro e he
        have := hd.1 e he
        rw [ha] at this
        simpa using this
      simp [List.filter_cons, ha, hrest]
    · obtain ⟨e, he, hid⟩ := h
      have he' : e ∈ l := by
        rcases List.mem_cons.mp he with rfl | hm
        · exact absurd hid ha
        · exact hm
      obtain ⟨l1, r, l2, hl, hr, hf⟩ := ih hd.2 ⟨e, he', hid⟩
      refine ⟨a :: l1, r, l2, by rw [hl]; rfl, hr, ?_⟩
      simp [List.filter_cons, ha, hf]

/-- C6: for every collection whose records have pairwise distinct ids and every id: if a
record with that id is present, the `'DELETE'` case removes exactly that record (the
collection `l1 ++ r :: l2` becomes `l1 ++ l2`), so the result is one shorter, holds no record
with that id and keeps the other records in their order; if no record has that id, the
result has the same records in the same order as the input. -/
theorem delete_removes_record (rnd : String) (state : JSArray) (id : String)
    (hd : (ids state.elems).Nodup) :
    ((∃ e ∈ state.elems, e.prop "id" = .str id) →
      ∃ (l1 : List Obj) (r : Obj) (l2 : List Obj),
        state.elems = l1 ++ r :: l2 ∧ r.prop "id" = .str id ∧
        (expensesReducer rnd state (.DELETE id)).elems = l1 ++ l2 ∧
        (expensesReducer rnd state (.DELETE id)).elems.length = state.elems.length - 1 ∧
        (∀ e ∈ (expensesReducer rnd state (.DELETE id)).elems, e.prop "id" ≠ .str id)) ∧
    ((∀ e ∈ state.elems, e.prop "id" ≠ .str id) →
      (expensesReducer rnd state (.DELETE id)).elems = state.elems ∧
      (expensesReducer rnd state (.DELETE id)).elems.length = state.elems.length) := by
  have hre : (expensesReducer rnd state (.DELETE id)).elems =
      state.elems.filter (fun expense => expense.prop "id" != .str id) := rfl
  constructor
  · intro h
    obtain ⟨l1, r, l2, hl, hr, hf⟩ := filter_removes_one (.str id) state.elems hd h
    refine ⟨l1, r, l2, hl, hr, by rw [hre, hf], ?_, ?_⟩
    · rw [hre, hf, hl]
      simp
    · intro e he
      rw [hre, List.mem_filter] at he
      simpa using he.2
  · intro h
    have hf : state.elems.filter (fun expense => expense.prop "id" != .str id) = state.elems := by
      rw [List.filter_eq_self]
      intro e he
      simpa using h e he
    rw [hre, hf]
    exact ⟨rfl, rfl⟩

theorem delete_removes_record_witness :
    (ids DUMMY_EXPENSES.elems).Nodup ∧
    (∃ e ∈ DUMMY_EXPENSES.elems, e.prop "id" = .str "e1") ∧
    ∃ (l1 : List Obj) (r : Obj) (l2 : List Obj),
      DUMMY_EXPENSES.elems = l1 ++ r :: l2 ∧ r.prop "id" = .str "e1" ∧
      (expensesReducer "0.5" DUMMY_EXPENSES (.DELETE "e1")).elems = l1 ++ l2 ∧
      (expensesReducer "0.5" DUMMY_EXPENSES (.DELETE "e1")).elems.length =
        DUMMY_EXPENSES.elems.length - 1 ∧
      (∀ e ∈ (expensesReducer "0.5" DUMMY_EXPENSES (.DELETE "e1")).elems,
        e.prop "id" ≠ .str "e1") :=
  ⟨by decide, by decide,
    (delete_removes_record "0.5" DUMMY_EXPENSES "e1" (by decide)).1 (by decide)⟩

/-! ## Lemmas on the built-ins -/

theorem daysBeforeMonth_le (y m : Nat) : daysBeforeMonth y m ≤ 335 := by
  unfold daysBeforeMonth
  simp only []
  split <;> (try split) <;> omega

theorem daysInMonth_le (y m : Nat) : daysInMonth y m ≤ 31 := by
  unfold daysInMonth
  split <;> try omega
  split <;> omega

theorem utcTime_natAbs_le (y m d : Nat) (hy : y ≤ 9999) (hd : d ≤ 31) :
    (utcTime y m d).natAbs ≤ 8640000000000000 := by
  have hb := daysBeforeMonth_le y m
  unfold utcTime dayFromYear
  omega

theorem digitsValue_four_le (a b c d : Char) (y : Nat)
    (h : digitsValue [a, b, c, d] = some y) : y ≤ 9999 := by
  unfold digitsValue at h
  split at h
  · rename_i hc
    simp only [List.all_cons, List.all_nil, Bool.and_true, Bool.and_eq_true,
      decide_eq_true_eq] at hc
    simp only [List.foldl_cons, List.foldl_nil, Option.some.injEq] at h
    omega
  · simp at h

theorem timeClip_utcTime (y m d : Nat) (hy : y ≤ 9999) (hd : d ≤ 31) :
    timeClip (some (utcTime y m d)) = some (utcTime y m d) := by
  simp [timeClip, utcTime_natAbs_le y m d hy hd]

theorem dateOfParts_clip (a b c d : Char) (ms ds : List Char) (t : Int)
    (h : dateOfParts [a, b, c, d] ms ds = some t) : timeClip (some t) = some t := by
  unfold dateOfParts at h
  split at h
  · rename_i y m d' hy hm hd
    split at h
    · rename_i hc
      simp only [Option.some.injEq] at h
      subst h
      exact timeClip_utcTime y m d' (digitsValue_four_le a b c d y hy)
        (le_trans hc.2.2.2 (daysInMonth_le y m))
    · simp at h
  · simp at h

/-- Every date-only form is inside the time range: `TimeClip` leaves it alone. -/
theorem timeClip_parseDateOnly (s : String) (t : Int) (h : parseDateOnly s = some t) :
    timeClip (some t) = some t := by
  unfold parseDateOnly at h
  split at h
  · exact dateOfParts_clip _ _ _ _ _ _ t h
  · split at h
    · exact dateOfParts_clip _ _ _ _ _ _ t h
    · simp at h
  · split at h
    · exact dateOfParts_clip _ _ _ _ _ _ t h
    · simp at h
  · simp at h

/-- A `YYYY-MM-DD` text of a real calendar date is one of the date-only forms. -/
theorem parseDateOnly_of_real (s : String) (h : isRealCalendarDate s = true) :
    ∃ t, parseDateOnly s = some t := by
  unfold isRealCalendarDate at h
  split at h
  · rename_i y1 y2 y3 y4 s1 m1 m2 s2 d1 d2 hs
    simp only [Bool.and_eq_true, beq_iff_eq] at h
    obtain ⟨⟨h1, h2⟩, h3⟩ := h
    subst h1 h2
    split at h3
    · rename_i y m d hy hm hd
      simp only [decide_eq_true_eq] at h3
      refine ⟨utcTime y m d, ?_⟩
      unfold parseDateOnly
      rw [hs]
      simp [dateOfParts, hy, hm, hd, h3]
    · simp at h3
  · simp at h

/-- The constructor `new Date(s)` gives a valid date for every real `YYYY-MM-DD` text. -/
theorem newDate_of_real (E : Engine) (s : String) (h : isRealCalendarDate s = true) :
    newDate E s ≠ none := by
  obtain ⟨t, ht⟩ := parseDateOnly_of_real s h
  unfold newDate
  rw [ht]
  simp only []
  rw [timeClip_parseDateOnly s t ht]
  simp

theorem length_pos_iff (s : String) : length s > 0 ↔ s ≠ "" := by
  obtain ⟨l⟩ := s
  cases l with
  | nil => simp [length, String.toList]
  | cons c l =>
    have hne : String.mk (c :: l) ≠ "" := by
      intro h
      have := congrArg String.data h
      simp at this
    simp only [length, String.toList, List.map_cons, List.sum_cons, gt_iff_lt, ne_eq, hne,
      not_false_eq_true, iff_true]
    split <;> omega

theorem trim_empty : trim "" = "" := by decide

theorem amountIsValid_eq (E : Engine) (inputs : Inputs) :
    amountIsValid E inputs = (toNumber E inputs.amount.value).gtZero := by
  unfold amountIsValid
  cases toNumber E inputs.amount.value <;> simp [isNaN, JSNumber.gtZero]

theorem dateIsValid_iff (E : Engine) (inputs : Inputs) :
    dateIsValid E inputs = true ↔ newDate E inputs.date.value ≠ none := by
  unfold dateIsValid toStringIsNotInvalidDate
  exact Option.isSome_iff_ne_none

theorem descriptionIsValid_iff (inputs : Inputs) :
    descriptionIsValid inputs = true ↔ trim inputs.description.value ≠ "" := by
  unfold descriptionIsValid
  rw [decide_eq_true_eq]
  exact length_pos_iff _

theorem submitHandler_valid (E : Engine) (inputs : Inputs)
    (h : amountIsValid E inputs = true ∧ dateIsValid E inputs = true ∧
      descriptionIsValid inputs = true) :
    submitHandler E inputs = .onSubmit (expenseData E inputs) := by
  simp [submitHandler, h.1, h.2.1, h.2.2]

theorem submitHandler_invalid (E : Engine) (inputs : Inputs)
    (h : ¬ (amountIsValid E inputs = true ∧ dateIsValid E inputs = true ∧
      descriptionIsValid inputs = true)) :
    submitHandler E inputs = .setInputs (fun curInputs =>
      { amount := { value := curInputs.amount.value, isValid := amountIsValid E inputs },
        date := { value := curInputs.date.value, isValid := dateIsValid E inputs },
        description :=
          { value := curInputs.description.value, isValid := descriptionIsValid inputs } }) := by
  unfold submitHandler
  rw [if_pos]
  simp only [Bool.or_eq_true, Bool.not_eq_true']
  by_cases ha : amountIsValid E inputs = true
  · by_cases hd : dateIsValid E inputs = true
    · by_cases hs : descriptionIsValid inputs = true
      · exact absurd ⟨ha, hd, hs⟩ h
      · exact Or.inr (by simpa using hs)
    · exact Or.inl (Or.inr (by simpa using hd))
  · exact Or.inl (Or.inl (by simpa using ha))

theorem expenseData_facts (E : Engine) (inputs : Inputs) :
    (expenseData E inputs).keys = ["amount", "date", "description"] ∧
    (expenseData E inputs).get? "amount" = some (.num (toNumber E inputs.amount.value)) ∧
    (expenseData E inputs).get? "date" = some (.date (newDate E inputs.date.value)) ∧
    (expenseData E inputs).get? "description" = some (.str inputs.description.value) ∧
    (expenseData E inputs).get? "id" = none := by
  refine ⟨?_, ?_, ?_, ?_, ?_⟩ <;>
    simp [expenseData, Obj.ofList, Obj.set, Obj.empty, Obj.keys, Obj.get?, propsSet, propsGet]

/-! ## The expense form -/

/-- C7: for every form state, `submitHandler` hands a payload to `onSubmit` if and only if the
amount text converts to a number greater than 0, the date text gives a valid date and the
trimmed description is not empty; the payload then has exactly the properties `amount` (the
converted number), `date` (the date built) and `description`, no `id`, and the form state is
left as it is. -/
theorem submit_emits_iff_valid (E : Engine) (inputs : Inputs) :
    ((submitHandler E inputs).emitted.isSome = true ↔
      ((toNumber E inputs.amount.value).gtZero = true ∧
        newDate E inputs.date.value ≠ none ∧
        trim inputs.description.value ≠ "")) ∧
    (∀ p : Obj, (submitHandler E inputs).emitted = some p →
      p.keys = ["amount", "date", "description"] ∧
      p.get? "amount" = some (.num (toNumber E inputs.amount.value)) ∧
      p.get? "date" = some (.date (newDate E inputs.date.value)) ∧
      p.get? "description" = some (.str inputs.description.value) ∧
      p.get? "id" = none ∧
      ∀ curInputs : Inputs, (submitHandler E inputs).apply curInputs = curInputs) := by
  rw [← amountIsValid_eq, ← dateIsValid_iff, ← descriptionIsValid_iff]
  by_cases h : amountIsValid E inputs = true ∧ dateIsValid E inputs = true ∧
      descriptionIsValid inputs = true
  · rw [submitHandler_valid E inputs h]
    refine ⟨by simpa [Outcome.emitted] using h, ?_⟩
    intro p hp
    simp only [Outcome.emitted, Option.some.injEq] at hp
    subst hp
    obtain ⟨h1, h2, h3, h4, h5⟩ := expenseData_facts E inputs
    exact ⟨h1, h2, h3, h4, h5, fun _ => rfl⟩
  · rw [submitHandler_invalid E inputs h]
    refine ⟨by simpa [Outcome.emitted] using h, ?_⟩
    intro p hp
    simp [Outcome.emitted] at hp

theorem submit_emits_iff_valid_witness :
    (submitHandler Engine.strict ⟨⟨"45", true⟩, ⟨"2025-04-05", true⟩, ⟨"Coffee", true⟩⟩).emitted =
        some (expenseData Engine.strict ⟨⟨"45", true⟩, ⟨"2025-04-05", true⟩, ⟨"Coffee", true⟩⟩) ∧
    (expenseData Engine.strict ⟨⟨"45", true⟩, ⟨"2025-04-05", true⟩, ⟨"Coffee", true⟩⟩).get?
        "amount" = some (.num (.fin 45 0)) ∧
    (expenseData Engine.strict ⟨⟨"45", true⟩, ⟨"2025-04-05", true⟩, ⟨"Coffee", true⟩⟩).get?
        "id" = none :=
  ⟨by decide,
    ((submit_emits_iff_valid Engine.strict
      ⟨⟨"45", true⟩, ⟨"2025-04-05", true⟩, ⟨"Coffee", true⟩⟩).2 _ (by decide)).2.1,
    ((submit_emits_iff_valid Engine.strict
      ⟨⟨"45", true⟩, ⟨"2025-04-05", true⟩, ⟨"Coffee", true⟩⟩).2 _ (by decide)).2.2.2.2.1⟩

/-- C8: for every form state in which at least one field is invalid (the amount text converts
to `NaN` or to a number not greater than 0, or the date is invalid, or the trimmed description
is empty), `submitHandler` does not call `onSubmit`, sets each field's `isValid` flag to that
field's own validity, keeps the text of all three fields, and `formIsInvalid` is then true. -/
theorem submit_rejects_invalid (E : Engine) (inputs : Inputs)
    (h : (isNaN (toNumber E inputs.amount.value) = true ∨
          (toNumber E inputs.amount.value).gtZero = false) ∨
        newDate E inputs.date.value = none ∨ trim inputs.description.value = "") :
    (submitHandler E inputs).emitted = none ∧
    ∀ curInputs : Inputs,
      ((submitHandler E inputs).apply curInputs).amount.isValid =
        decide (isNaN (toNumber E inputs.amount.value) = false ∧
          (toNumber E inputs.amount.value).gtZero = true) ∧
      ((submitHandler E inputs).apply curInputs).date.isValid =
        decide (newDate E inputs.date.value ≠ none) ∧
      ((submitHandler E inputs).apply curInputs).description.isValid =
        decide (trim inputs.description.value ≠ "") ∧
      ((submitHandler E inputs).apply curInputs).amount.value = curInputs.amount.value ∧
      ((submitHandler E inputs).apply curInputs).date.value = curInputs.date.value ∧
      ((submitHandler E inputs).apply curInputs).description.value =
        curInputs.description.value ∧
      formIsInvalid ((submitHandler E inputs).apply curInputs) = true := by
  have hinv : ¬ (amountIsValid E inputs = true ∧ dateIsValid E inputs = true ∧
      descriptionIsValid inputs = true) := by
    rw [amountIsValid_eq, dateIsValid_iff, descriptionIsValid_iff]
    rintro ⟨ha, hd, hs⟩
    rcases h with (hn | hg) | hd' | hs'
    · cases hv : toNumber E inputs.amount.value <;> simp [hv, isNaN, JSNumber.gtZero] at hn ha
    · rw [hg] at ha; exact absurd ha (by simp)
    · exact hd hd'
    · exact hs hs'
  have ha : amountIsValid E inputs = decide (isNaN (toNumber E inputs.amount.value) = false ∧
      (toNumber E inputs.amount.value).gtZero = true) := by
    unfold amountIsValid
    cases toNumber E inputs.amount.value <;> simp [isNaN, JSNumber.gtZero]
  have hd : dateIsValid E inputs = decide (newDate E inputs.date.value ≠ none) := by
    unfold dateIsValid toStringIsNotInvalidDate
    cases newDate E inputs.date.value <;> simp
  have hs : descriptionIsValid inputs = decide (trim inputs.description.value ≠ "") := by
    unfold descriptionIsValid
    exact decide_eq_decide.mpr (length_pos_iff _)
  rw [submitHandler_invalid E inputs hinv]
  refine ⟨rfl, fun curInputs => ⟨ha, hd, hs, rfl, rfl, rfl, ?_⟩⟩
  simp only [Outcome.apply, formIsInvalid, Bool.or_eq_true, Bool.not_eq_true']
  by_cases h1 : amountIsValid E inputs = true
  · by_cases h2 : dateIsValid E inputs = true
    · by_cases h3 : descriptionIsValid inputs = true
      · exact absurd ⟨h1, h2, h3⟩ hinv
      · exact Or.inr (by simpa using h3)
    · exact Or.inl (Or.inr (by simpa using h2))
  · exact Or.inl (Or.inl (by simpa using h1))

theorem submit_rejects_invalid_witness :
    (submitHandler Engine.strict ⟨⟨"0", true⟩, ⟨"2025-04-05", true⟩, ⟨"Coffee", true⟩⟩).emitted =
      none ∧
    formIsInvalid ((submitHandler Engine.strict
      ⟨⟨"0", true⟩, ⟨"2025-04-05", true⟩, ⟨"Coffee", true⟩⟩).apply
        ⟨⟨"0", true⟩, ⟨"2025-04-05", true⟩, ⟨"Coffee", true⟩⟩) = true :=
  ⟨(submit_rejects_invalid Engine.strict
      ⟨⟨"0", true⟩, ⟨"2025-04-05", true⟩, ⟨"Coffee", true⟩⟩ (Or.inl (Or.inr (by decide)))).1,
    ((submit_rejects_invalid Engine.strict
      ⟨⟨"0", true⟩, ⟨"2025-04-05", true⟩, ⟨"Coffee", true⟩⟩ (Or.inl (Or.inr (by decide)))).2
        ⟨⟨"0", true⟩, ⟨"2025-04-05", true⟩, ⟨"Coffee", true⟩⟩).2.2.2.2.2.2⟩

/-- C9, as stated, fails: the date is whatever `new Date(text)` accepts. The year-only text
`2025` is not a `YYYY-MM-DD` string, yet it is a date-only form that every engine reads as
1 January 2025: the date is computed as valid and the payload is emitted (the same holds for
the year-month text `2025-04`). -/
theorem year_only_date_is_accepted :
    isRealCalendarDate "2025" = false ∧
    newDate Engine.strict "2025" = some 1735689600000 ∧
    dateIsValid Engine.strict ⟨⟨"45", true⟩, ⟨"2025", true⟩, ⟨"Coffee", true⟩⟩ = true ∧
    (submitHandler Engine.strict ⟨⟨"45", true⟩, ⟨"2025", true⟩, ⟨"Coffee", true⟩⟩).emitted =
      some (Obj.ofList [("amount", .num (.fin 45 0)), ("date", .date (some 1735689600000)),
        ("description", .str "Coffee")]) ∧
    isRealCalendarDate "2025-04" = false ∧
    dateIsValid Engine.strict ⟨⟨"45", true⟩, ⟨"2025-04", true⟩, ⟨"Coffee", true⟩⟩ = true := by
  decide

/-- C9, amended: `submitHandler` computes the date as valid exactly when `new Date(text)` is
not an invalid date. Every `YYYY-MM-DD` text of a real calendar date is computed as valid, and
so is every other text the constructor accepts, in every engine the date-only forms (such as
`2025` and `2025-04`). For a text that gives an invalid date no payload is emitted,
`date.isValid` becomes false and the text is kept. For a text that gives a valid date a
payload is emitted exactly when the amount converts to a number greater than 0 and the
trimmed description is not empty, and otherwise `date.isValid` is set to true. -/
theorem date_valid_iff_constructor_accepts (E : Engine) (inputs : Inputs) :
    (dateIsValid E inputs = true ↔ newDate E inputs.date.value ≠ none) ∧
    (isRealCalendarDate inputs.date.value = true → dateIsValid E inputs = true) ∧
    (∀ t : Int, parseDateOnly inputs.date.value = some t →
      newDate E inputs.date.value = some t ∧ dateIsValid E inputs = true) ∧
    (newDate E inputs.date.value = none →
      dateIsValid E inputs = false ∧
      (submitHandler E inputs).emitted = none ∧
      ∀ curInputs : Inputs,
        ((submitHandler E inputs).apply curInputs).date.isValid = false ∧
        ((submitHandler E inputs).apply curInputs).date.value = curInputs.date.value) ∧
    (newDate E inputs.date.value ≠ none →
      ((submitHandler E inputs).emitted.isSome = true ↔
        ((toNumber E inputs.amount.value).gtZero = true ∧
          trim inputs.description.value ≠ "")) ∧
      ((submitHandler E inputs).emitted = none →
        ∀ curInputs : Inputs,
          ((submitHandler E inputs).apply curInputs).date.isValid = true ∧
          ((submitHandler E inputs).apply curInputs).date.value = curInputs.date.value)) := by
  have hiff := dateIsValid_iff E inputs
  refine ⟨hiff, ?_, ?_, ?_, ?_⟩
  · intro hr
    exact hiff.mpr (newDate_of_real E _ hr)
  · intro t ht
    have hn : newDate E inputs.date.value = some t := by
      unfold newDate
      rw [ht]
      exact timeClip_parseDateOnly _ t ht
    exact ⟨hn, hiff.mpr (by rw [hn]; simp)⟩
  · intro h
    have hd : dateIsValid E inputs = false := by
      unfold dateIsValid toStringIsNotInvalidDate
      rw [h]
      rfl
    have hinv : ¬ (amountIsValid E inputs = true ∧ dateIsValid E inputs = true ∧
        descriptionIsValid inputs = true) := by
      rintro ⟨-, h2, -⟩
      rw [hd] at h2
      exact absurd h2 (by simp)
    rw [submitHandler_invalid E inputs hinv]
    exact ⟨hd, rfl, fun _ => ⟨hd, rfl⟩⟩
  · intro h
    have hd : dateIsValid E inputs = true := hiff.mpr h
    rw [← amountIsValid_eq, ← descriptionIsValid_iff]
    by_cases hv : amountIsValid E inputs = true ∧ dateIsValid E inputs = true ∧
        descriptionIsValid inputs = true
    · rw [submitHandler_valid E inputs hv]
      refine ⟨by simp [Outcome.emitted, hv.1, hv.2.2], ?_⟩
      intro hnone
      simp [Outcome.emitted] at hnone
    · rw [submitHandler_invalid E inputs hv]
      refine ⟨?_, fun _ _ => ⟨hd, rfl⟩⟩
      simp only [Outcome.emitted, Option.isSome_none, Bool.false_eq_true, false_iff]
      rintro ⟨ha, hs⟩
      exact hv ⟨ha, hd, hs⟩

theorem date_valid_iff_constructor_accepts_witness :
    (isRealCalendarDate "2025-04-05" = true ∧
      dateIsValid Engine.strict ⟨⟨"45", true⟩, ⟨"2025-04-05", true⟩, ⟨"Coffee", true⟩⟩ = true) ∧
    (parseDateOnly "2025" = some 1735689600000 ∧
      newDate Engine.strict "2025" = some 1735689600000 ∧
      dateIsValid Engine.strict ⟨⟨"45", true⟩, ⟨"2025", true⟩, ⟨"Coffee", true⟩⟩ = true) ∧
    (newDate Engine.strict "tomorrow" = none ∧
      dateIsValid Engine.strict ⟨⟨"45", true⟩, ⟨"tomorrow", true⟩, ⟨"Coffee", true⟩⟩ = false ∧
      (submitHandler Engine.strict
        ⟨⟨"45", true⟩, ⟨"tomorrow", true⟩, ⟨"Coffee", true⟩⟩).emitted = none) ∧
    (newDate Engine.strict "2025-04-05" ≠ none ∧
      (submitHandler Engine.strict
        ⟨⟨"45", true⟩, ⟨"2025-04-05", true⟩, ⟨"Coffee", true⟩⟩).emitted.isSome = true) :=
  ⟨⟨by decide,
      (date_valid_iff_constructor_accepts Engine.strict
        ⟨⟨"45", true⟩, ⟨"2025-04-05", true⟩, ⟨"Coffee", true⟩⟩).2.1 (by decide)⟩,
    ⟨by decide,
      ((date_valid_iff_constructor_accepts Engine.strict
        ⟨⟨"45", true⟩, ⟨"2025", true⟩, ⟨"Coffee", true⟩⟩).2.2.1 1735689600000 (by decide)).1,
      ((date_valid_iff_constructor_accepts Engine.strict
        ⟨⟨"45", true⟩, ⟨"2025", true⟩, ⟨"Coffee", true⟩⟩).2.2.1 1735689600000 (by decide)).2⟩,
    ⟨by decide,
      ((date_valid_iff_constructor_accepts Engine.strict
        ⟨⟨"45", true⟩, ⟨"tomorrow", true⟩, ⟨"Coffee", true⟩⟩).2.2.2.1 (by decide)).1,
      ((date_valid_iff_constructor_accepts Engine.strict
        ⟨⟨"45", true⟩, ⟨"tomorrow", true⟩, ⟨"Coffee", true⟩⟩).2.2.2.1 (by decide)).2.1⟩,
    ⟨by decide,
      ((date_valid_iff_constructor_accepts Engine.strict
        ⟨⟨"45", true⟩, ⟨"2025-04-05", true⟩, ⟨"Coffee", true⟩⟩).2.2.2.2 (by decide)).1.mpr
        ⟨by decide, by decide⟩⟩⟩

/-- C10, as stated, fails: `trim` is used for the validity test only, the payload carries the
text as typed. With the description `" Coffee "` the payload's description is `" Coffee "`,
which differs from its trim `"Coffee"`. -/
theorem payload_description_is_not_trimmed :
    ((submitHandler Engine.strict
      ⟨⟨"45", true⟩, ⟨"2025-04-05", true⟩, ⟨" Coffee ", true⟩⟩).emitted.map
        (fun p => p.prop "description")) = some (.str " Coffee ") ∧
    trim " Coffee " = "Coffee" ∧
    ((submitHandler Engine.strict
      ⟨⟨"45", true⟩, ⟨"2025-04-05", true⟩, ⟨" Coffee ", true⟩⟩).emitted.map
        (fun p => p.prop "description")) ≠ some (.str (trim " Coffee ")) := by
  decide

/-- C10, amended: every payload that `submitHandler` hands to `onSubmit` carries the raw
description text unchanged; that text is not empty and its trim is not empty (it holds at
least one character that `trim` does not strip). -/
theorem payload_description_is_raw (E : Engine) (inputs : Inputs) (p : Obj)
    (h : (submitHandler E inputs).emitted = some p) :
    p.get? "description" = some (.str inputs.description.value) ∧
    p.prop "description" = .str inputs.description.value ∧
    trim inputs.description.value ≠ "" ∧
    inputs.description.value ≠ "" := by
  have hv : amountIsValid E inputs = true ∧ dateIsValid E inputs = true ∧
      descriptionIsValid inputs = true := by
    by_contra hc
    rw [submitHandler_invalid E inputs hc] at h
    simp [Outcome.emitted] at h
  rw [submitHandler_valid E inputs hv] at h
  simp only [Outcome.emitted, Option.some.injEq] at h
  subst h
  have hg := (expenseData_facts E inputs).2.2.2.1
  have ht := (descriptionIsValid_iff inputs).mp hv.2.2
  refine ⟨hg, by simp [Obj.prop, hg], ht, ?_⟩
  intro he
  rw [he, trim_empty] at ht
  exact ht rfl

theorem payload_description_is_raw_witness :
    (expenseData Engine.strict
      ⟨⟨"45", true⟩, ⟨"2025-04-05", true⟩, ⟨" Coffee ", true⟩⟩).prop "description" =
        .str " Coffee " ∧
    trim " Coffee " ≠ "" :=
  ⟨(payload_description_is_raw Engine.strict
      ⟨⟨"45", true⟩, ⟨"2025-04-05", true⟩, ⟨" Coffee ", true⟩⟩
      (expenseData Engine.strict ⟨⟨"45", true⟩, ⟨"2025-04-05", true⟩, ⟨" Coffee ", true⟩⟩)
      (by decide)).2.1,
    (payload_description_is_raw Engine.strict
      ⟨⟨"45", true⟩, ⟨"2025-04-05", true⟩, ⟨" Coffee ", true⟩⟩
      (expenseData Engine.strict ⟨⟨"45", true⟩, ⟨"2025-04-05", true⟩, ⟨" Coffee ", true⟩⟩)
      (by decide)).2.2.1⟩

end ExpenseTracker
